import Mathlib

/-!
Shallow embedding of the `kevs` configuration-language library (`kevs.go`):
codec primitives (UCS→UTF-8 encoder, escape normalizer, integer-literal
parser), the scanner, the parser, and the value-tree accessors, together with
theorems checking the specified behaviour.

Conventions of the embedding:
* Go source text and token text are modelled as `List Char` / `String`; all
  characters relevant to the grammar are ASCII, where Go's byte-wise and
  rune-wise traversals coincide.
* Machine integers (`uint64`, `int64`) are modelled as `Nat` with explicit
  `% 2^64` at the points where Go arithmetic can wrap, and as `Int` for the
  signed result.
* Fallible Go functions returning `(T, error)` become `Except String T`.
  Go runtime faults (index out of range, slice bounds) are modelled by a
  dedicated result constructor (`GoRes.oobPanic`) or state flag (`oob`),
  and `panic(err)` raised by `AbortOnError` by the `panicked` flag /
  `panicErr` outcome.
-/

/-- A single ASCII apostrophe, used when reproducing Go error messages. -/
def squo : String := String.mk [Char.ofNat 39]

/-- Result of a Go function call: normal value, returned `error`, or a
runtime fault (index/slice out of range). -/
inductive GoRes (α : Type) where
  | ok : α → GoRes α
  | err : String → GoRes α
  | oobPanic : GoRes α
deriving Repr

/-! ## Value tree (Go `ValueKind`, `Value`, `KeyValue`, `Table`, `List`) -/

/-- Go `ValueKind`. -/
inductive ValueKind where
  | undefined
  | string
  | integer
  | boolean
  | list
  | table
deriving Repr, DecidableEq

/-- Go `Value` together with its `ValueData` payload struct, flattened: the
Go struct holds all payload fields simultaneously (zero-valued when unused),
discriminated by `kind`.  A table entry (`KeyValue`) is a key/value pair. -/
inductive Value where
  | mk (kind : ValueKind) (listData : List Value)
      (tableData : List (String × Value)) (stringData : List Char)
      (integerData : Int) (booleanData : Bool)
deriving Repr

/-- Go `KeyValue`: `{Key string; Value Value}`. -/
abbrev KeyValue := String × Value

/-- Go `Table`: ordered sequence of key/value entries. -/
abbrev Table := List KeyValue

def Value.kind : Value → ValueKind
  | .mk k _ _ _ _ _ => k

def Value.listData : Value → List Value
  | .mk _ l _ _ _ _ => l

def Value.tableData : Value → Table
  | .mk _ _ t _ _ _ => t

def Value.stringData : Value → List Char
  | .mk _ _ _ s _ _ => s

def Value.integerData : Value → Int
  | .mk _ _ _ _ i _ => i

def Value.booleanData : Value → Bool
  | .mk _ _ _ _ _ b => b

/-- Go `Value{Kind: ValueKindString, Data: {String: s}}` (other fields zero). -/
def Value.ofString (s : List Char) : Value := .mk .string [] [] s 0 false

/-- Go `Value{Kind: ValueKindInteger, Data: {Integer: i}}`. -/
def Value.ofInteger (i : Int) : Value := .mk .integer [] [] [] i false

/-- Go `Value{Kind: ValueKindBoolean, Data: {Boolean: b}}`. -/
def Value.ofBoolean (b : Bool) : Value := .mk .boolean [] [] [] 0 b

/-- Go `Value{Kind: ValueKindList, Data: {List: l}}`. -/
def Value.ofList (l : List Value) : Value := .mk .list l [] [] 0 false

/-- Go `Value{Kind: ValueKindTable, Data: {Table: t}}`. -/
def Value.ofTable (t : Table) : Value := .mk .table [] t [] 0 false

/-! ## Byte/char classification helpers (Go `is_digit`, `lower`, `is_letter`) -/

/-- Go `is_digit(c byte) bool`. -/
def is_digit (c : Char) : Bool := 48 ≤ c.toNat && c.toNat ≤ 57

/-- Go `lower(c byte) byte`, i.e. `c | 0x20`, on the byte value. -/
def lowerByte (n : Nat) : Nat := n ||| 32

/-- Go `is_letter(c byte) bool`. -/
def is_letter (c : Char) : Bool :=
  97 ≤ lowerByte c.toNat && lowerByte c.toNat ≤ 122

/-- The digit value Go's `str_to_uint` loop computes for a character:
`c - '0'` for digits, `lower(c) - 'a' + 10` for letters, invalid otherwise. -/
def digit_value (c : Char) : Option Nat :=
  if is_digit c then some (c.toNat - 48)
  else if is_letter c then some (lowerByte c.toNat - 97 + 10)
  else none

/-! ## Integer-literal parsing (Go `str_to_uint`, `str_to_int`) -/

/-- `2^64`, the wrap-around modulus of Go `uint64` arithmetic. -/
def U64_MOD : Nat := 18446744073709551616

/-- `1<<64 - 1`, Go's `max` constant in `str_to_uint`. -/
def U64_MAX : Nat := 18446744073709551615

/-- Go's `cutoff := max/base + 1`: the smallest `n` with `n*base > max`. -/
def cutoff (base : Nat) : Nat := U64_MAX / base + 1

/-- The digit-accumulation loop of Go `str_to_uint` (after base detection):
`n *= base; n += d` on `uint64` with Go's per-step overflow checks. -/
def str_to_uint_loop (base : Nat) (n : Nat) : List Char → Except String Nat
  | [] => .ok n
  | c :: cs =>
    match digit_value c with
    | none => .error "invalid char, must be a letter or a digit"
    | some d =>
      if base ≤ d then .error "invalid digit, bigger than base"
      else if cutoff base ≤ n then .error "invalid input, mul overflows"
      else
        let n2 := (n * base) % U64_MOD
        let n1 := (n2 + d) % U64_MOD
        if n1 < n2 || U64_MAX < n1 then .error "invalid input, add overflows"
        else str_to_uint_loop base n1 cs

/-- Go `str_to_uint(s string, base uint64) (uint64, error)`: auto base
detection when `base == 0` (`0x`/`0o`/`0b` prefixes, bare `0`, else base 10),
then the checked accumulation loop. -/
def str_to_uint (s : List Char) (base : Nat) : Except String Nat :=
  match s with
  | [] => .error "empty input"
  | c0 :: rest =>
    if base = 0 then
      if c0 = '0' then
        match rest with
        | [] => .ok 0
        | c1 :: tl =>
          if (c0 :: c1 :: tl).length < 3 then
            .error "leading 0 requires at least 2 more chars"
          else if c1 = 'x' then str_to_uint_loop 16 0 tl
          else if c1 = 'o' then str_to_uint_loop 8 0 tl
          else if c1 = 'b' then str_to_uint_loop 2 0 tl
          else .error ("invalid base char, must be " ++ squo ++ "x" ++ squo ++
            ", " ++ squo ++ "o" ++ squo ++ " or " ++ squo ++ "b" ++ squo)
      else str_to_uint_loop 10 0 (c0 :: rest)
    else
      if base ≠ 2 ∧ base ≠ 8 ∧ base ≠ 16 then .error "invalid base"
      else str_to_uint_loop base 0 s

/-- `2^63`, Go's `max := uint64(1) << 63` in `str_to_int`. -/
def I64_BOUND : Nat := 9223372036854775808

/-- Go `str_to_int(s string, base uint64) (int64, error)`: optional sign,
unsigned parse, signed range check, then two's-complement reinterpretation
`int64(un)` and negation. -/
def str_to_int (s : List Char) (base : Nat) : Except String Int :=
  match s with
  | [] => .error "empty input"
  | c0 :: rest =>
    let neg : Bool := c0 = '-'
    let s1 : List Char := if c0 = '+' || c0 = '-' then rest else c0 :: rest
    match str_to_uint s1 base with
    | .error e => .error e
    | .ok un =>
      if !neg && I64_BOUND ≤ un then
        .error "invalid input, overflows max value"
      else if neg && I64_BOUND < un then
        .error "invalid input, underflows min value"
      else
        -- Go: n := int64(un), a two's-complement reinterpretation.
        let n : Int := if un < I64_BOUND then (un : Int) else (un : Int) - (U64_MOD : Int)
        .ok (if neg && 0 ≤ n then -n else n)

/-- The tail of Go `str_to_int` after the `str_to_uint` call (range checks,
`int64` reinterpretation, negation), split out so the sign cases of the
proofs below can share it; `str_to_int` is definitionally this composition. -/
def str_to_int_post (neg : Bool) : Except String Nat → Except String Int
  | .error e => .error e
  | .ok un =>
    if !neg && I64_BOUND ≤ un then
      .error "invalid input, overflows max value"
    else if neg && I64_BOUND < un then
      .error "invalid input, underflows min value"
    else
      let n : Int := if un < I64_BOUND then (un : Int) else (un : Int) - (U64_MOD : Int)
      .ok (if neg && 0 ≤ n then -n else n)

/-! ## UCS→UTF-8 encoding (Go `ucs_to_utf8`) -/

/-- Go `ucs_to_utf8(code uint64) []byte`; `none` models the `nil` slice
("no encoding").  `byte(x)` truncation is `% 256`. -/
def ucs_to_utf8 (code : Nat) : Option (List Nat) :=
  if 0xd800 ≤ code ∧ code ≤ 0xdfff then none
  else if code ≤ 0x7F then some [code % 256]
  else if code ≤ 0x7FF then
    some [(0xc0 ||| (code >>> 6)) % 256,
          (0x80 ||| (code &&& 0x3f)) % 256]
  else if code ≤ 0xFFFF then
    some [(0xe0 ||| (code >>> 12)) % 256,
          (0x80 ||| ((code >>> 6) &&& 0x3f)) % 256,
          (0x80 ||| (code &&& 0x3f)) % 256]
  else if code ≤ 0x10FFFF then
    some [(0xf0 ||| (code >>> 18)) % 256,
          (0x80 ||| ((code >>> 12) &&& 0x3f)) % 256,
          (0x80 ||| ((code >>> 6) &&& 0x3f)) % 256,
          (0x80 ||| (code &&& 0x3f)) % 256]
  else none

/-! ## Escape normalization (Go `normString`) -/

/-- Prepend a decoded prefix to the remainder of a normalization. -/
def GoRes.consPrefix (pre : List Char) : GoRes (List Char) → GoRes (List Char)
  | .ok l => .ok (pre ++ l)
  | .err e => .err e
  | .oobPanic => .oobPanic

/-- Go `normString(s string) (string, error)`: decode the escape sequences in
the interior of a quoted string.  Inserted UTF-8 bytes are represented as
characters with the byte's code value.  When the final byte is a backslash,
Go increments `i` and reads `s[i]` one past the end: `oobPanic`. -/
def normString : List Char → GoRes (List Char)
  | [] => .ok []
  | c :: rest =>
    if c = '\\' then
      match rest with
      | [] => .oobPanic  -- Go: `i++` then `s[i]` with `i == len(s)`
      | 'a' :: tl => GoRes.consPrefix [Char.ofNat 7] (normString tl)
      | 'b' :: tl => GoRes.consPrefix [Char.ofNat 8] (normString tl)
      | 'f' :: tl => GoRes.consPrefix [Char.ofNat 12] (normString tl)
      | 'n' :: tl => GoRes.consPrefix [Char.ofNat 10] (normString tl)
      | 'r' :: tl => GoRes.consPrefix [Char.ofNat 13] (normString tl)
      | 't' :: tl => GoRes.consPrefix [Char.ofNat 9] (normString tl)
      | 'v' :: tl => GoRes.consPrefix [Char.ofNat 11] (normString tl)
      | '"' :: tl => GoRes.consPrefix ['"'] (normString tl)
      | '\\' :: tl => GoRes.consPrefix ['\\'] (normString tl)
      | 'u' :: h1 :: h2 :: h3 :: h4 :: tl =>
        (match str_to_uint [h1, h2, h3, h4] 16 with
         | .error e => .err e
         | .ok code =>
           match ucs_to_utf8 code with
           | none => .err "could not encode Unicode code point to UTF-8"
           | some bytes => GoRes.consPrefix (bytes.map Char.ofNat) (normString tl))
      | 'u' :: _ => .err "\\u must be followed by 4 hex digits: \\uXXXX"
      | 'U' :: h1 :: h2 :: h3 :: h4 :: h5 :: h6 :: h7 :: h8 :: tl =>
        (match str_to_uint [h1, h2, h3, h4, h5, h6, h7, h8] 16 with
         | .error e => .err e
         | .ok code =>
           match ucs_to_utf8 code with
           | none => .err "could not encode Unicode code point to UTF-8"
           | some bytes => GoRes.consPrefix (bytes.map Char.ofNat) (normString tl))
      | 'U' :: _ => .err "\\U must be followed by 8 hex digits: \\UXXXXXXXX"
      | _ :: _ => .err "unknown escape sequence"
    else
      GoRes.consPrefix [c] (normString rest)

/-! ## Tokens, flags, scanner state -/

/-- Go `TokenKind`. -/
inductive TokenKind where
  | undefined
  | key
  | delim
  | value
deriving Repr, DecidableEq

/-- Go `Token{Value string; Kind TokenKind; Line int}`. -/
structure Token where
  value : String
  kind : TokenKind
  line : Nat
deriving Repr, DecidableEq

/-- Go `Flags{AbortOnError bool}`. -/
structure Flags where
  abortOnError : Bool
deriving Repr, DecidableEq

/-- Character constants of the format (Go `kKeyValSep` … `kTableEnd`).
Brace and backtick characters are written via their code points. -/
def kKeyValSep : Char := '='

def kKeyValEnd : Char := ';'

def kCommentBegin : Char := '#'

def kStringBegin : Char := '"'

def kRawStringBegin : Char := Char.ofNat 96

def kListBegin : Char := '['

def kListEnd : Char := ']'

def kTableBegin : Char := Char.ofNat 123

def kTableEnd : Char := Char.ofNat 125

/-- The two horizontal whitespace characters of Go's `spaces = " \t"`. -/
def isSpaceChar (c : Char) : Bool := c = ' ' || c = '\t'

/-- `strings.TrimRight(s, " \t")` on a character list. -/
def trimRightSpaces (l : List Char) : List Char :=
  (l.reverse.dropWhile isSpaceChar).reverse

/-- Go `indexAny(s, chars string) (rune, int)`: the first character of `s`
belonging to `chars`, with its index; `none` models the `(0, -1)` result. -/
def indexAny (s : List Char) (chars : List Char) : Option (Char × Nat) :=
  match s with
  | [] => none
  | c :: rest =>
    if c ∈ chars then some (c, 0)
    else (indexAny rest chars).map (fun p => (p.1, p.2 + 1))

/-- Go `scanner` state: remaining content, accumulated tokens, current line,
recorded error.  `panicked` models `panic(err)` under `AbortOnError`. -/
structure Scanner where
  file : String
  content : List Char
  flags : Flags
  tokens : List Token
  line : Nat
  err : Option String
  panicked : Bool
deriving Repr

/-- The error string built by Go `scanner.errorf`:
`"%s:%d: error: scan: %s"`. -/
def errFmtScan (file : String) (line : Nat) (msg : String) : String :=
  file ++ ":" ++ toString line ++ ": error: scan: " ++ msg

/-- Go `scanner.errorf`: record the formatted error; under `AbortOnError`
the error is raised as a panic. -/
def Scanner.errorf (s : Scanner) (msg : String) : Scanner :=
  { s with err := some (errFmtScan s.file s.line msg),
           panicked := s.flags.abortOnError }

/-- Go `scanner.trim_space`. -/
def Scanner.trim_space (s : Scanner) : Scanner :=
  { s with content := s.content.dropWhile isSpaceChar }

/-- Go `scanner.expect(c byte)`. -/
def Scanner.expect (s : Scanner) (c : Char) : Bool :=
  match s.content with
  | [] => false
  | x :: _ => x = c

/-- Go `scanner.advance(n)`. -/
def Scanner.advance (s : Scanner) (n : Nat) : Scanner :=
  { s with content := s.content.drop n }

/-- Go `scanner.scan_newline`. -/
def Scanner.scan_newline (s : Scanner) : Scanner :=
  { s with line := s.line + 1, content := s.content.drop 1 }

/-- Go `scanner.scan_comment`: advance to (not past) the next newline. -/
def Scanner.scan_comment (s : Scanner) : Bool × Scanner :=
  match indexAny s.content ['\n'] with
  | none => (false, s.errorf "comment does not end with newline")
  | some (_, i) => (true, s.advance i)

/-- Go `scanner.append(kind, end)`: emit a token for `content[:end]` with
trailing spaces trimmed, and advance past it. -/
def Scanner.append (s : Scanner) (kind : TokenKind) (endPos : Nat) : Scanner :=
  { s with
    tokens := s.tokens ++
      [⟨String.mk (trimRightSpaces (s.content.take endPos)), kind, s.line⟩],
    content := s.content.drop endPos }

/-- Go `scanner.append_delim`: emit a one-character `Delim` token. -/
def Scanner.append_delim (s : Scanner) : Scanner :=
  { s with
    tokens := s.tokens ++ [⟨String.mk (s.content.take 1), .delim, s.line⟩],
    content := s.content.drop 1 }

/-- Go `scanner.scan_key`: find the first of `=`/`;`/newline; it must be `=`;
emit the trimmed key span, which must be nonempty. -/
def Scanner.scan_key (s : Scanner) : Bool × Scanner :=
  match indexAny s.content [kKeyValSep, kKeyValEnd, '\n'] with
  | some (c, i) =>
    if c = kKeyValSep then
      let s1 := s.append .key i
      if trimRightSpaces (s.content.take i) = [] then (false, s1.errorf "empty key")
      else (true, s1)
    else (false, s.errorf "key-value pair is missing separator")
  | none => (false, s.errorf "key-value pair is missing separator")

/-- Go `scanner.scan_delim(c)`. -/
def Scanner.scan_delim (s : Scanner) (c : Char) : Bool × Scanner :=
  if s.expect c then (true, s.append_delim) else (false, s)

/-- The quote-searching loop of Go `scan_string_value`: starting after the
opening quote, find successive `"` and stop at the first one whose
immediately preceding character is not a backslash; returns the token end
(one past the closing quote). -/
def scan_quote_end (s : List Char) (endPos : Nat) : Nat → Option Nat
  | 0 => none
  | fuel + 1 =>
    match indexAny (s.drop endPos) [kStringBegin] with
    | none => none
    | some (_, i) =>
      let e := endPos + i + 1
      if s.getD (e - 2) ' ' ≠ '\\' then some e
      else scan_quote_end s e fuel

/-- Go `scanner.scan_string_value`. -/
def Scanner.scan_string_value (s : Scanner) : Bool × Scanner :=
  match scan_quote_end s.content 1 (s.content.length + 1) with
  | none => (false, s.errorf "string value does not end with quote")
  | some e => (true, s.append .value e)

/-- Go `scanner.scan_raw_string`: find the closing backtick, emit the token
(both delimiters included), and add the newlines it spans to the line
counter. -/
def Scanner.scan_raw_string (s : Scanner) : Bool × Scanner :=
  match indexAny (s.content.drop 1) [kRawStringBegin] with
  | none => (false, s.errorf "raw string value does not end with backtick")
  | some (_, e) =>
    let val := trimRightSpaces (s.content.take (e + 2))
    let s1 := s.append .value (e + 2)
    (true, { s1 with line := s1.line + val.count '\n' })

/-- Go `scanner.scan_int_or_bool_value`: find the first of `;`/`]`/`}`/newline;
it must be `;`; emit the (trimmed) span before it. -/
def Scanner.scan_int_or_bool_value (s : Scanner) : Bool × Scanner :=
  match indexAny s.content [kKeyValEnd, kListEnd, kTableEnd, '\n'] with
  | none => (false, s.errorf "integer or boolean value does not end with semicolon")
  | some (c, endPos) =>
    if c ≠ kKeyValEnd then
      (false, s.errorf "integer or boolean value does not end with semicolon")
    else (true, s.append .value endPos)

mutual

/-- Go `scanner.scan_value`: dispatch on the first non-space character, then
require the terminating `;`. -/
def scan_value (fuel : Nat) (s : Scanner) : Bool × Scanner :=
  match fuel with
  | 0 => (false, s.errorf "out of fuel")
  | fuel + 1 =>
    let s := s.trim_space
    let r :=
      if s.expect kListBegin then scan_list_value fuel s
      else if s.expect kTableBegin then scan_table_value fuel s
      else if s.expect kStringBegin then s.scan_string_value
      else if s.expect kRawStringBegin then s.scan_raw_string
      else s.scan_int_or_bool_value
    match r with
    | (false, s1) => (false, s1)
    | (true, s1) =>
      match s1.scan_delim kKeyValEnd with
      | (false, s2) => (false, s2.errorf "value does not end with semicolon")
      | (true, s2) => (true, s2)

/-- Go `scanner.scan_list_value`: consume `[`, then the element loop. -/
def scan_list_value (fuel : Nat) (s : Scanner) : Bool × Scanner :=
  match fuel with
  | 0 => (false, s.errorf "out of fuel")
  | fuel + 1 => scan_list_loop fuel s.append_delim

/-- The `for` loop of Go `scan_list_value`: skip newlines and comments, stop
at `]`, otherwise scan a value (checking for `]` again after it). -/
def scan_list_loop (fuel : Nat) (s : Scanner) : Bool × Scanner :=
  match fuel with
  | 0 => (false, s.errorf "out of fuel")
  | fuel + 1 =>
    let s := s.trim_space
    if s.content = [] then (false, s.errorf "end of input without list end")
    else if s.expect '\n' then scan_list_loop fuel s.scan_newline
    else if s.expect kCommentBegin then
      match s.scan_comment with
      | (false, s1) => (false, s1)
      | (true, s1) => scan_list_loop fuel s1
    else if s.expect kListEnd then (true, s.append_delim)
    else
      match scan_value fuel s with
      | (false, s1) => (false, s1)
      | (true, s1) =>
        if s1.expect kListEnd then (true, s1.append_delim)
        else scan_list_loop fuel s1

/-- Go `scanner.scan_table_value`: consume the opening brace, then the
key-value loop. -/
def scan_table_value (fuel : Nat) (s : Scanner) : Bool × Scanner :=
  match fuel with
  | 0 => (false, s.errorf "out of fuel")
  | fuel + 1 => scan_table_loop fuel s.append_delim

/-- The `for` loop of Go `scan_table_value`. -/
def scan_table_loop (fuel : Nat) (s : Scanner) : Bool × Scanner :=
  match fuel with
  | 0 => (false, s.errorf "out of fuel")
  | fuel + 1 =>
    let s := s.trim_space
    if s.content = [] then (false, s.errorf "end of input without table end")
    else if s.expect '\n' then scan_table_loop fuel s.scan_newline
    else if s.expect kCommentBegin then
      match s.scan_comment with
      | (false, s1) => (false, s1)
      | (true, s1) => scan_table_loop fuel s1
    else if s.expect kTableEnd then (true, s.append_delim)
    else
      match scan_key_value fuel s with
      | (false, s1) => (false, s1)
      | (true, s1) =>
        if s1.expect kTableEnd then (true, s1.append_delim)
        else scan_table_loop fuel s1

/-- Go `scanner.scan_key_value`: key, `=` delimiter, value. -/
def scan_key_value (fuel : Nat) (s : Scanner) : Bool × Scanner :=
  match fuel with
  | 0 => (false, s.errorf "out of fuel")
  | fuel + 1 =>
    match s.scan_key with
    | (false, s1) => (false, s1)
    | (true, s1) => scan_value fuel s1.append_delim

end

/-- The top-level loop of Go `Scan`. -/
def scan_loop (fuel : Nat) (s : Scanner) : Bool × Scanner :=
  match fuel with
  | 0 => (false, s.errorf "out of fuel")
  | fuel + 1 =>
    if s.content = [] then (true, s)
    else
      let s := s.trim_space
      let r :=
        if s.expect '\n' then (true, s.scan_newline)
        else if s.expect kCommentBegin then s.scan_comment
        else scan_key_value fuel s
      match r with
      | (false, s1) => (false, s1)
      | (true, s1) => scan_loop fuel s1

/-- Outcome of Go `Scan`: token list, returned error, or a panic raised by
`AbortOnError`. -/
inductive ScanOutcome where
  | ok (tokens : List Token)
  | err (e : String)
  | panicErr (e : String)
deriving Repr

/-- Go `Scan(file, content string, flags Flags) ([]Token, error)`.  The fuel
bounds the loop/recursion depth; it exceeds what any input can consume, since
every iteration advances the content cursor. -/
def Scan (file : String) (content : List Char) (flags : Flags) : ScanOutcome :=
  let s0 : Scanner :=
    { file := file, content := content, flags := flags,
      tokens := [], line := 1, err := none, panicked := false }
  match scan_loop (2 * content.length + 8) s0 with
  | (true, s1) => .ok s1.tokens
  | (false, s1) =>
    if s1.panicked then .panicErr (s1.err.getD "")
    else .err (s1.err.getD "")

/-! ## Parser (Go `parser`, `ParseTokens`) -/

/-- Go `is_identifier(s string) bool` for nonempty `s` (Go indexes `s[0]`
unconditionally; the caller models the empty case, where Go faults). -/
def is_identifier (s : String) : Bool :=
  match s.toList with
  | [] => false
  | c :: rest =>
    (c = '_' || is_letter c) &&
      rest.all (fun x => is_digit x || is_letter x || x = '_')

/-- Go `parser` state.  `i` is the token cursor.  `oob` records an index-out-
of-range fault raised by `parser.get` (`self.tokens[self.i]`), `panicked` a
`panic(err)` raised by `AbortOnError`. -/
structure Parser where
  file : String
  flags : Flags
  tokens : List Token
  i : Nat
  err : Option String
  panicked : Bool
  oob : Bool
deriving Repr

/-- The error string built by Go `parser.errorf`:
`"%s:%d: error: parse: %s"` with the line of the current token. -/
def errFmtParse (file : String) (line : Nat) (msg : String) : String :=
  file ++ ":" ++ toString line ++ ": error: parse: " ++ msg

/-- Go `parser.errorf`: the format call evaluates `self.get().Line`, i.e.
`self.tokens[self.i]`; when the cursor is past the end, Go faults with an
index-out-of-range panic before any error is recorded. -/
def Parser.errorf (p : Parser) (msg : String) : Parser :=
  match p.tokens[p.i]? with
  | none => { p with oob := true }
  | some tok =>
    { p with err := some (errFmtParse p.file tok.line msg),
             panicked := p.flags.abortOnError }

/-- Go `parser.pop`. -/
def Parser.pop (p : Parser) : Parser := { p with i := p.i + 1 }

/-- Go `parser.expect(kind)`: with the cursor past the end this calls
`errorf("expected token '%s', have nothing", kind)`, which faults reading
`tokens[i]` (see `Parser.errorf`). -/
def Parser.expectKind (p : Parser) (k : TokenKind) : Bool × Parser :=
  match p.tokens[p.i]? with
  | none => (false, { p with oob := true })
  | some tok => (tok.kind = k, p)

/-- Go `parser.expect_delim(delim)`. -/
def Parser.expect_delim (p : Parser) (c : Char) : Bool × Parser :=
  match p.expectKind .delim with
  | (false, p1) => (false, p1)
  | (true, p1) =>
    match p1.tokens[p1.i]? with
    | none => (false, { p1 with oob := true })
    | some tok => (tok.value = String.mk [c], p1)

/-- Go `parser.parse_delim(c)`. -/
def Parser.parse_delim (p : Parser) (c : Char) : Bool × Parser :=
  match p.expect_delim c with
  | (false, p1) => (false, p1)
  | (true, p1) => (true, p1.pop)

/-- Go `parser.parse_key(parent Table)`: a `Key` token whose text is a valid
identifier and is not already a key of the parent table being built. -/
def parse_key (p : Parser) (parent : Table) : Option String × Parser :=
  match p.expectKind .key with
  | (false, p1) => (none, p1.errorf "expected key token")
  | (true, p1) =>
    match p1.tokens[p1.i]? with
    | none => (none, { p1 with oob := true })
    | some tok =>
      match tok.value.toList with
      | [] => (none, { p1 with oob := true })  -- Go: is_identifier reads s[0]
      | _ :: _ =>
        if !(is_identifier tok.value) then
          (none, p1.errorf ("key is not a valid identifier: " ++ squo ++
            tok.value ++ squo))
        else if parent.any (fun kv => kv.1 = tok.value) then
          (none, p1.errorf ("key " ++ squo ++ tok.value ++ squo ++
            " is not unique for current table"))
        else (some tok.value, p1.pop)

/-- Go `parser.parse_simple_value`: decode a `Value` token as escaped string,
raw string, boolean, or integer.  Go indexes `val[0]` and slices
`val[1 : len(val)-1]` without bounds checks; an empty token text (which the
scanner can produce, e.g. for `a=;`) or a one-character quoted/raw token
faults. -/
def parse_simple_value (p : Parser) : Option Value × Parser :=
  match p.expectKind .value with
  | (false, p1) => (none, p1.errorf "expected value token")
  | (true, p1) =>
    match p1.tokens[p1.i]? with
    | none => (none, { p1 with oob := true })
    | some tok =>
      match tok.value.toList with
      | [] => (none, { p1 with oob := true })  -- Go: val[0] on empty string
      | c :: rest =>
        if c = kStringBegin then
          match rest with
          | [] => (none, { p1 with oob := true })  -- Go: val[1:0] slice fault
          | _ :: _ =>
            match normString rest.dropLast with
            | .err e => (none, p1.errorf ("could not normalize string: " ++ e))
            | .oobPanic => (none, { p1 with oob := true })
            | .ok data => (some (Value.ofString data), p1.pop)
        else if c = kRawStringBegin then
          match rest with
          | [] => (none, { p1 with oob := true })  -- Go: val[1:0] slice fault
          | _ :: _ => (some (Value.ofString rest.dropLast), p1.pop)
        else if tok.value = "true" then (some (Value.ofBoolean true), p1.pop)
        else if tok.value = "false" then (some (Value.ofBoolean false), p1.pop)
        else
          match str_to_int tok.value.toList 0 with
          | .error e =>
            (none, (p1.errorf ("value " ++ squo ++ tok.value ++ squo ++
              " is not an integer: " ++ e)).pop)
          | .ok i => (some (Value.ofInteger i), p1.pop)

mutual

/-- Go `parser.parse_value`: list, table, or simple value, then the `;`
delimiter. -/
def parse_value (fuel : Nat) (p : Parser) : Option Value × Parser :=
  match fuel with
  | 0 => (none, p.errorf "out of fuel")
  | fuel + 1 =>
    let r :=
      match p.expect_delim kListBegin with
      | (true, p1) => parse_list_value fuel p1
      | (false, p1) =>
        match p1.expect_delim kTableBegin with
        | (true, p2) => parse_table_value fuel p2
        | (false, p2) => parse_simple_value p2
    match r with
    | (none, p1) => (none, p1)
    | (some v, p1) =>
      match p1.parse_delim kKeyValEnd with
      | (false, p2) => (none, p2.errorf "missing key value end")
      | (true, p2) => (some v, p2)

/-- Go `parser.parse_list_value`: consume `[`, then the element loop. -/
def parse_list_value (fuel : Nat) (p : Parser) : Option Value × Parser :=
  match fuel with
  | 0 => (none, p.errorf "out of fuel")
  | fuel + 1 => parse_list_loop fuel p.pop []

/-- The `for` loop of Go `parse_list_value`, accumulating the elements. -/
def parse_list_loop (fuel : Nat) (p : Parser) (acc : List Value) :
    Option Value × Parser :=
  match fuel with
  | 0 => (none, p.errorf "out of fuel")
  | fuel + 1 =>
    match p.parse_delim kListEnd with
    | (true, p1) => (some (Value.ofList acc), p1)
    | (false, p1) =>
      match parse_value fuel p1 with
      | (none, p2) => (none, p2)
      | (some v, p2) =>
        match p2.parse_delim kListEnd with
        | (true, p3) => (some (Value.ofList (acc ++ [v])), p3)
        | (false, p3) => parse_list_loop fuel p3 (acc ++ [v])

/-- Go `parser.parse_table_value`: consume the opening brace, then the
key-value loop. -/
def parse_table_value (fuel : Nat) (p : Parser) : Option Value × Parser :=
  match fuel with
  | 0 => (none, p.errorf "out of fuel")
  | fuel + 1 => parse_table_loop fuel p.pop []

/-- The `for` loop of Go `parse_table_value`: each key is checked against the
table accumulated so far (`out.Data.Table`). -/
def parse_table_loop (fuel : Nat) (p : Parser) (acc : Table) :
    Option Value × Parser :=
  match fuel with
  | 0 => (none, p.errorf "out of fuel")
  | fuel + 1 =>
    match p.parse_delim kTableEnd with
    | (true, p1) => (some (Value.ofTable acc), p1)
    | (false, p1) =>
      match parse_key_value fuel p1 acc with
      | (none, p2) => (none, p2)
      | (some kv, p2) =>
        match p2.parse_delim kTableEnd with
        | (true, p3) => (some (Value.ofTable (acc ++ [kv])), p3)
        | (false, p3) => parse_table_loop fuel p3 (acc ++ [kv])

/-- Go `parser.parse_key_value(parent Table)`. -/
def parse_key_value (fuel : Nat) (p : Parser) (parent : Table) :
    Option KeyValue × Parser :=
  match fuel with
  | 0 => (none, p.errorf "out of fuel")
  | fuel + 1 =>
    match parse_key p parent with
    | (none, p1) => (none, p1)
    | (some key, p1) =>
      match p1.parse_delim kKeyValSep with
      | (false, p2) => (none, p2.errorf "missing key value separator")
      | (true, p2) =>
        match parse_value fuel p2 with
        | (none, p3) => (none, p3)
        | (some v, p3) => (some (key, v), p3)

end

/-- The top-level loop of Go `ParseTokens`, accumulating the root table,
which is also the uniqueness parent for top-level keys. -/
def parse_top_loop (fuel : Nat) (p : Parser) (table : Table) :
    Option Table × Parser :=
  match fuel with
  | 0 => (none, p.errorf "out of fuel")
  | fuel + 1 =>
    if p.i < p.tokens.length then
      match parse_key_value fuel p table with
      | (none, p1) => (none, p1)
      | (some kv, p1) => parse_top_loop fuel p1 (table ++ [kv])
    else (some table, p)

/-- Outcome of Go `ParseTokens`/`Parse`: a root table, a returned error, a
panic raised by `AbortOnError`, or an index-out-of-range fault. -/
inductive ParseOutcome where
  | ok (t : Table)
  | err (e : String)
  | panicErr (e : String)
  | panicOOB
deriving Repr

/-- Go `ParseTokens(file, content string, flags Flags, tokens []Token)`.
(The unused `content` parameter is dropped.)  The fuel exceeds what any token
sequence can consume, since every production pops at least one token. -/
def ParseTokens (file : String) (flags : Flags) (tokens : List Token) :
    ParseOutcome :=
  let p0 : Parser :=
    { file := file, flags := flags, tokens := tokens, i := 0,
      err := none, panicked := false, oob := false }
  match parse_top_loop (2 * tokens.length + 8) p0 [] with
  | (some t, _) => .ok t
  | (none, p1) =>
    if p1.oob then .panicOOB
    else if p1.panicked then .panicErr (p1.err.getD "")
    else .err (p1.err.getD "")

/-- Go `Parse(file, content string, flags Flags) (Table, error)`:
scan, then parse the token sequence. -/
def Parse (file : String) (content : List Char) (flags : Flags) :
    ParseOutcome :=
  match Scan file content flags with
  | .ok tokens => ParseTokens file flags tokens
  | .err e => .err e
  | .panicErr e => .panicErr e

/-! ## Table accessors (Go `Table.get`, `Table.GetString`, …) -/

/-- Go `Table.get(key)`: linear search, first entry whose key equals `key`. -/
def Table.get : Table → String → Except String Value
  | [], _ => .error "key not found"
  | kv :: rest, k => if kv.1 = k then .ok kv.2 else Table.get rest k

/-- Go `Table.GetString(key)`. -/
def Table.GetString (t : Table) (k : String) : Except String (List Char) :=
  match Table.get t k with
  | .error e => .error e
  | .ok v =>
    if v.kind ≠ .string then .error "value is not string"
    else .ok v.stringData

/-- Go `Table.GetInteger(key)`. -/
def Table.GetInteger (t : Table) (k : String) : Except String Int :=
  match Table.get t k with
  | .error e => .error e
  | .ok v =>
    if v.kind ≠ .integer then .error "value is not integer"
    else .ok v.integerData

/-- Go `Table.GetBoolean(key)`. -/
def Table.GetBoolean (t : Table) (k : String) : Except String Bool :=
  match Table.get t k with
  | .error e => .error e
  | .ok v =>
    if v.kind ≠ .boolean then .error "value is not boolean"
    else .ok v.booleanData

/-- Go `Table.GetTable(key)`. -/
def Table.GetTable (t : Table) (k : String) : Except String Table :=
  match Table.get t k with
  | .error e => .error e
  | .ok v =>
    if v.kind ≠ .table then .error "value is not table"
    else .ok v.tableData

/-- Go `Table.GetList(key)`. -/
def Table.GetList (t : Table) (k : String) : Except String (List Value) :=
  match Table.get t k with
  | .error e => .error e
  | .ok v =>
    if v.kind ≠ .list then .error "value is not list"
    else .ok v.listData

/-- The mathematical (unbounded) magnitude of a digit string in base `b`,
accumulated from `n`: the value `n·bᵏ + Σ dᵢ·bᵏ⁻ⁱ` that Go's multiply-and-add
loop would compute without overflow. -/
def digitsVal (b n : Nat) (ds : List Char) : Nat :=
  ds.foldl (fun a c => a * b + (digit_value c).getD 0) n

/-! ## Theorems -/

/-- C1: the scanner's quoted-string scan does NOT implement the claimed
odd/even backslash-counting rule.  On `k = "\\";` — a string consisting of an
escaped backslash, whose closing quote is preceded by an even number (two) of
backslashes and should therefore close the string — the code looks only at
the single immediately preceding character, treats the quote as escaped,
keeps scanning, and fails with "string value does not end with quote". -/
theorem c1_escaped_backslash_scan_fails :
    Scan "f" ("k = \"\\\\\";").toList ⟨false⟩ =
      .err (errFmtScan "f" 1 "string value does not end with quote") := by
  rfl

/-- C6: end-to-end parses of nested structures preserve order and kinds:
a nested table with entries `x` (Integer 2) then `y` (String "3"), a list
with String elements "aa" then "bb", and an empty list. -/
theorem c6_nested_parse :
    Parse "f" ("k = \x7b x = 2; y = \"3\"; \x7d;").toList ⟨false⟩ =
      .ok [("k", Value.ofTable
        [("x", Value.ofInteger 2), ("y", Value.ofString ['3'])])] ∧
    Parse "f" ("k = [ \"aa\"; \"bb\"; ];").toList ⟨false⟩ =
      .ok [("k", Value.ofList
        [Value.ofString ['a', 'a'], Value.ofString ['b', 'b']])] ∧
    Parse "f" ("k = [];").toList ⟨false⟩ =
      .ok [("k", Value.ofList [])] := by
  exact ⟨rfl, rfl, rfl⟩

/-- C7: parsing `a=;` fails, but not with a returned
`fileLabel:line: error: parse: …` error value as claimed: the scanner emits
an empty `Value` token for the span before `;`, and `parse_simple_value`
then indexes `val[0]` on the empty string — an index-out-of-range fault,
even though `AbortOnError` is unset. -/
theorem c7_empty_scalar_token_panics :
    Parse "f" ("a=;").toList ⟨false⟩ = .panicOOB := by
  rfl

/-- C9: `ParseTokens` on a token sequence that ends in the middle of a
production — a lone `Key` token — does not report an error: while building
the "missing key value separator" diagnostic, `parser.errorf` evaluates
`self.get().Line`, i.e. `tokens[1]` of a length-1 array, an out-of-bounds
token access. -/
theorem c9_lone_key_token_panics :
    ParseTokens "f" ⟨false⟩ [⟨"a", .key, 1⟩] = .panicOOB := by
  rfl

/-- C10: the escape normalizer applied to an input whose final byte is a lone
backslash does not produce an error: Go increments the cursor past the
backslash and reads `s[i]` one position past the end of the string. -/
theorem c10_trailing_backslash_panics :
    normString ['\\'] = .oobPanic := by
  rfl

/-- Disjoint-bit OR for the 2-byte leading marker. -/
theorem lor192_eq_add : ∀ x, x < 32 → 192 ||| x = 192 + x := by decide

/-- Disjoint-bit OR for the 3-byte leading marker. -/
theorem lor224_eq_add : ∀ x, x < 16 → 224 ||| x = 224 + x := by decide

/-- Disjoint-bit OR for the 4-byte leading marker. -/
theorem lor240_eq_add : ∀ x, x < 8 → 240 ||| x = 240 + x := by decide

/-- Disjoint-bit OR for the continuation marker. -/
theorem lor128_eq_add : ∀ x, x < 64 → 128 ||| x = 128 + x := by decide

/-- Masking with `0x3f` is `% 64`. -/
theorem and63_eq_mod (n : Nat) : n &&& 63 = n % 64 := by
  have h := Nat.and_pow_two_sub_one_eq_mod n 6
  norm_num at h
  exact h

/-- `>>> 6` is division by 64. -/
theorem shr6_eq_div (n : Nat) : n >>> 6 = n / 64 := by
  have h := Nat.shiftRight_eq_div_pow n 6
  norm_num at h
  exact h

/-- `>>> 12` is division by 4096. -/
theorem shr12_eq_div (n : Nat) : n >>> 12 = n / 4096 := by
  have h := Nat.shiftRight_eq_div_pow n 12
  norm_num at h
  exact h

/-- `>>> 18` is division by 262144. -/
theorem shr18_eq_div (n : Nat) : n >>> 18 = n / 262144 := by
  have h := Nat.shiftRight_eq_div_pow n 18
  norm_num at h
  exact h

/-- C3: for every unsigned 64-bit code point, the UCS→UTF-8 encoder fails
exactly on the surrogate range `0xD800`–`0xDFFF` and on values above
`0x10FFFF`, and otherwise emits the standard 1/2/3/4-byte sequence selected
by the ranges `≤0x7F`, `≤0x7FF`, `≤0xFFFF`, `≤0x10FFFF`, with leading-byte
markers `0x00`/`0xC0`/`0xE0`/`0xF0` and continuation marker `0x80`; in
particular `0x10FFFF` encodes to `F4 8F BF BF` and each of `0xD800`,
`0xDBFF`, `0xDC00`, `0xDFFF`, `0x110000` fails. -/
theorem c3_ucs_to_utf8_correct (code : Nat)
    (hcode : code < 18446744073709551616) :
    (ucs_to_utf8 code = none ↔
      (0xd800 ≤ code ∧ code ≤ 0xdfff) ∨ 0x10FFFF < code) ∧
    (code ≤ 0x7F → ucs_to_utf8 code = some [code]) ∧
    (0x80 ≤ code → code ≤ 0x7FF →
      ucs_to_utf8 code = some [0xc0 + code / 64, 0x80 + code % 64]) ∧
    (0x800 ≤ code → code ≤ 0xFFFF → ¬(0xd800 ≤ code ∧ code ≤ 0xdfff) →
      ucs_to_utf8 code =
        some [0xe0 + code / 4096, 0x80 + code / 64 % 64, 0x80 + code % 64]) ∧
    (0x10000 ≤ code → code ≤ 0x10FFFF →
      ucs_to_utf8 code =
        some [0xf0 + code / 262144, 0x80 + code / 4096 % 64,
              0x80 + code / 64 % 64, 0x80 + code % 64]) ∧
    ucs_to_utf8 0x10FFFF = some [0xF4, 0x8F, 0xBF, 0xBF] ∧
    ucs_to_utf8 0xD800 = none ∧ ucs_to_utf8 0xDBFF = none ∧
    ucs_to_utf8 0xDC00 = none ∧ ucs_to_utf8 0xDFFF = none ∧
    ucs_to_utf8 0x110000 = none := by
  refine ⟨?_, ?_, ?_, ?_, ?_, rfl, rfl, rfl, rfl, rfl, rfl⟩
  · unfold ucs_to_utf8
    split_ifs with h1 h2 h3 h4 h5 <;> simp <;> omega
  · intro h
    unfold ucs_to_utf8
    rw [if_neg (by omega), if_pos h]
    simp [Nat.mod_eq_of_lt (by omega : code < 256)]
  · intro h1 h2
    unfold ucs_to_utf8
    rw [if_neg (by omega), if_neg (by omega), if_pos h2]
    rw [shr6_eq_div, and63_eq_mod, lor192_eq_add _ (by omega),
      lor128_eq_add _ (by omega)]
    simp only [Option.some.injEq, List.cons.injEq, and_true]
    omega
  · intro h1 h2 h3
    unfold ucs_to_utf8
    rw [if_neg h3, if_neg (by omega), if_neg (by omega), if_pos h2]
    rw [shr12_eq_div, shr6_eq_div, and63_eq_mod, and63_eq_mod,
      lor224_eq_add _ (by omega), lor128_eq_add _ (by omega),
      lor128_eq_add _ (by omega)]
    simp only [Option.some.injEq, List.cons.injEq, and_true]
    omega
  · intro h1 h2
    unfold ucs_to_utf8
    rw [if_neg (by omega), if_neg (by omega), if_neg (by omega),
      if_neg (by omega), if_pos h2]
    rw [shr18_eq_div, shr12_eq_div, shr6_eq_div, and63_eq_mod, and63_eq_mod,
      and63_eq_mod, lor240_eq_add _ (by omega), lor128_eq_add _ (by omega),
      lor128_eq_add _ (by omega), lor128_eq_add _ (by omega)]
    simp only [Option.some.injEq, List.cons.injEq, and_true]
    omega

/-- Witness for C3 at the concrete code point `0x42`. -/
theorem c3_witness : ucs_to_utf8 66 = some [66] :=
  (c3_ucs_to_utf8_correct 66 (by decide)).2.1 (by decide)

/-- `Table.get` returns the value of the first entry whose key matches. -/
theorem table_get_eq_find (t : Table) (k : String) :
    Table.get t k =
      match t.find? (fun kv => kv.1 == k) with
      | none => .error "key not found"
      | some kv => .ok kv.2 := by
  induction t with
  | nil => rfl
  | cons kv rest ih =>
    by_cases h : kv.1 = k
    · simp [Table.get, h, List.find?_cons]
    · simp only [Table.get, if_neg h, ih, List.find?_cons]
      have hb : (kv.1 == k) = false := beq_eq_false_iff_ne.mpr h
      rw [hb]

/-- C8: every accessor performs a linear lookup resolving to the first entry
whose key equals `k`; it fails with `"key not found"` when no entry has that
key, returns the matching payload when the entry's kind matches, and fails
with a distinct wrong-kind error otherwise; the two failure messages are
always distinguishable. -/
theorem c8_accessors (t : Table) (k : String) :
    (t.find? (fun kv => kv.1 == k) = none →
      Table.GetString t k = .error "key not found" ∧
      Table.GetInteger t k = .error "key not found" ∧
      Table.GetBoolean t k = .error "key not found" ∧
      Table.GetTable t k = .error "key not found" ∧
      Table.GetList t k = .error "key not found") ∧
    (∀ kv, t.find? (fun kv => kv.1 == k) = some kv →
      ((kv.2.kind = .string → Table.GetString t k = .ok kv.2.stringData) ∧
       (kv.2.kind ≠ .string →
         Table.GetString t k = .error "value is not string")) ∧
      ((kv.2.kind = .integer → Table.GetInteger t k = .ok kv.2.integerData) ∧
       (kv.2.kind ≠ .integer →
         Table.GetInteger t k = .error "value is not integer")) ∧
      ((kv.2.kind = .boolean → Table.GetBoolean t k = .ok kv.2.booleanData) ∧
       (kv.2.kind ≠ .boolean →
         Table.GetBoolean t k = .error "value is not boolean")) ∧
      ((kv.2.kind = .table → Table.GetTable t k = .ok kv.2.tableData) ∧
       (kv.2.kind ≠ .table →
         Table.GetTable t k = .error "value is not table")) ∧
      ((kv.2.kind = .list → Table.GetList t k = .ok kv.2.listData) ∧
       (kv.2.kind ≠ .list →
         Table.GetList t k = .error "value is not list"))) ∧
    ((("key not found" : String) ≠ "value is not string") ∧
     (("key not found" : String) ≠ "value is not integer") ∧
     (("key not found" : String) ≠ "value is not boolean") ∧
     (("key not found" : String) ≠ "value is not table") ∧
     (("key not found" : String) ≠ "value is not list")) := by
  have hg := table_get_eq_find t k
  refine ⟨?_, ?_, by decide, by decide, by decide, by decide, by decide⟩
  · intro h
    rw [h] at hg
    exact ⟨by simp [Table.GetString, hg], by simp [Table.GetInteger, hg],
      by simp [Table.GetBoolean, hg], by simp [Table.GetTable, hg],
      by simp [Table.GetList, hg]⟩
  · intro kv h
    rw [h] at hg
    refine ⟨⟨fun hk => ?_, fun hk => ?_⟩, ⟨fun hk => ?_, fun hk => ?_⟩,
      ⟨fun hk => ?_, fun hk => ?_⟩, ⟨fun hk => ?_, fun hk => ?_⟩,
      ⟨fun hk => ?_, fun hk => ?_⟩⟩ <;>
      simp [Table.GetString, Table.GetInteger, Table.GetBoolean,
        Table.GetTable, Table.GetList, hg, hk]

/-- Witness for C8 on a one-entry table holding a string. -/
theorem c8_witness :
    Table.GetString [("a", Value.ofString ['x'])] "a" = .ok ['x'] ∧
    Table.GetInteger [("a", Value.ofString ['x'])] "a" =
      .error "value is not integer" ∧
    Table.GetList [("a", Value.ofString ['x'])] "b" =
      .error "key not found" := by
  have hfound := (c8_accessors [("a", Value.ofString ['x'])] "a").2.1
    ("a", Value.ofString ['x']) (by rfl)
  have hmiss := (c8_accessors [("a", Value.ofString ['x'])] "b").1 (by rfl)
  exact ⟨hfound.1.1 rfl, hfound.2.1.2 (by decide), hmiss.2.2.2.2⟩

/-- `indexAny` returns `none` exactly when no character of `s` is in
`chars`. -/
theorem indexAny_eq_none_iff (s chars : List Char) :
    indexAny s chars = none ↔ ∀ c ∈ s, c ∉ chars := by
  induction s with
  | nil => simp [indexAny]
  | cons c rest ih =>
    by_cases h : c ∈ chars
    · simp [indexAny, h]
    · simp [indexAny, h, ih]

/-- `indexAny` returns the first index whose character is in `chars`. -/
theorem indexAny_eq_some (s chars : List Char) (i : Nat)
    (hi : i < s.length) (hmem : s.getD i ' ' ∈ chars)
    (hmin : ∀ j, j < i → s.getD j ' ' ∉ chars) :
    indexAny s chars = some (s.getD i ' ', i) := by
  induction s generalizing i with
  | nil => simp at hi
  | cons c rest ih =>
    cases i with
    | zero =>
      simp only [List.getD_cons_zero] at hmem ⊢
      simp [indexAny, hmem]
    | succ n =>
      have hc : c ∉ chars := by
        have h0 := hmin 0 (Nat.succ_pos n)
        simpa using h0
      simp only [List.getD_cons_succ] at hmem ⊢
      have hrec := ih n (by simpa using hi) hmem
        (fun j hj => by
          have := hmin (j + 1) (by omega)
          simpa using this)
      simp [indexAny, hc, hrec]

/-- C4: when the scanner scans a bare (integer-or-boolean) value, it locates
the first occurrence of `;`, `]`, `}`, or newline in the remaining text and
errors unless that character is precisely `;` (including when none occurs at
all); when it is `;`, a `Value` token is emitted for the span before it with
trailing spaces trimmed, and the cursor stops at the `;`. -/
theorem c4_scan_int_or_bool (s : Scanner) :
    ((∀ c ∈ s.content, c ∉ [kKeyValEnd, kListEnd, kTableEnd, '\n']) →
      Scanner.scan_int_or_bool_value s =
        (false,
          s.errorf "integer or boolean value does not end with semicolon")) ∧
    (∀ i, i < s.content.length →
      s.content.getD i ' ' ∈ [kKeyValEnd, kListEnd, kTableEnd, '\n'] →
      (∀ j, j < i →
        s.content.getD j ' ' ∉ [kKeyValEnd, kListEnd, kTableEnd, '\n']) →
      ((s.content.getD i ' ' = kKeyValEnd →
        Scanner.scan_int_or_bool_value s = (true, s.append .value i) ∧
        (s.append .value i).tokens = s.tokens ++
          [⟨String.mk (trimRightSpaces (s.content.take i)), .value, s.line⟩] ∧
        (s.append .value i).content = s.content.drop i) ∧
       (s.content.getD i ' ' ≠ kKeyValEnd →
        Scanner.scan_int_or_bool_value s =
          (false,
            s.errorf
              "integer or boolean value does not end with semicolon")))) := by
  constructor
  · intro h
    unfold Scanner.scan_int_or_bool_value
    rw [(indexAny_eq_none_iff _ _).mpr h]
  · intro i hi hmem hmin
    have hsome := indexAny_eq_some s.content
      [kKeyValEnd, kListEnd, kTableEnd, '\n'] i hi hmem hmin
    constructor
    · intro hc
      refine ⟨?_, rfl, rfl⟩
      unfold Scanner.scan_int_or_bool_value
      rw [hsome]
      exact if_neg (not_not_intro hc)
    · intro hc
      unfold Scanner.scan_int_or_bool_value
      rw [hsome]
      exact if_pos hc

/-- Witness for C4 on the concrete scanner state with content `42;`. -/
theorem c4_witness :
    Scanner.scan_int_or_bool_value
        ⟨"f", ("42;").toList, ⟨false⟩, [], 1, none, false⟩ =
      (true,
        Scanner.append ⟨"f", ("42;").toList, ⟨false⟩, [], 1, none, false⟩
          .value 2) := by
  have h := (c4_scan_int_or_bool
    ⟨"f", ("42;").toList, ⟨false⟩, [], 1, none, false⟩).2 2
    (by decide) (by decide) (by decide)
  exact (h.1 (by decide)).1

/-- C5: at the moment the parser accepts a key it checks uniqueness against
the parent table accumulated so far: a key (valid identifier, `Key` token)
equal to an already-inserted sibling key makes `parse_key` fail with an error
naming that key, so nothing is overwritten or duplicated; in particular the
end-to-end parse of `a = 1; a = 2;` fails with exactly that error. -/
theorem c5_duplicate_key :
    (∀ (p : Parser) (parent : Table) (tok : Token),
      p.tokens[p.i]? = some tok → tok.kind = .key →
      is_identifier tok.value = true →
      (∃ kv ∈ parent, kv.1 = tok.value) →
      parse_key p parent =
        (none, p.errorf ("key " ++ squo ++ tok.value ++ squo ++
          " is not unique for current table"))) ∧
    Parse "f" ("a = 1; a = 2;").toList ⟨false⟩ =
      .err (errFmtParse "f" 1 ("key " ++ squo ++ "a" ++ squo ++
        " is not unique for current table")) := by
  constructor
  · intro p parent tok hget hkind hid hdup
    have hany : parent.any (fun kv => kv.1 = tok.value) = true := by
      rw [List.any_eq_true]
      obtain ⟨kv, hkv, he⟩ := hdup
      exact ⟨kv, hkv, by simp [he]⟩
    have htl : tok.value.toList ≠ [] := by
      intro h
      rw [is_identifier, h] at hid
      exact Bool.noConfusion hid
    have h1 : Parser.expectKind p .key = (true, p) := by
      unfold Parser.expectKind
      rw [hget]
      simp [hkind]
    cases hl : tok.value.toList with
    | nil => exact absurd hl htl
    | cons c rest =>
      have hld : tok.value.data = c :: rest := hl
      simp [parse_key, h1, hget, hl, hld, hid, hany]
  · rfl

/-- Witness for C5: a parser state whose current token is the key `a`,
with `a` already present in the parent table. -/
theorem c5_witness :
    parse_key ⟨"f", ⟨false⟩, [⟨"a", .key, 3⟩], 0, none, false, false⟩
        [("a", Value.ofInteger 1)] =
      (none,
        Parser.errorf ⟨"f", ⟨false⟩, [⟨"a", .key, 3⟩], 0, none, false, false⟩
          ("key " ++ squo ++ "a" ++ squo ++
            " is not unique for current table")) := by
  exact c5_duplicate_key.1 _ _ ⟨"a", .key, 3⟩ rfl rfl (by decide)
    ⟨("a", Value.ofInteger 1), by simp, rfl⟩

/-- The accumulated magnitude never decreases (each step multiplies by a
positive base and adds a digit). -/
theorem le_digitsVal (b : Nat) (hb : 1 ≤ b) (ds : List Char) :
    ∀ n, n ≤ digitsVal b n ds := by
  induction ds with
  | nil => intro n; exact Nat.le_refl n
  | cons c cs ih =>
    intro n
    have h1 : n * 1 ≤ n * b := Nat.mul_le_mul_left n hb
    have h2 := ih (n * b + (digit_value c).getD 0)
    calc n ≤ n * b + (digit_value c).getD 0 := by omega
    _ ≤ _ := h2

/-- Unfolding `digitsVal` one digit at a time. -/
theorem digitsVal_cons (b n : Nat) (c : Char) (cs : List Char) :
    digitsVal b n (c :: cs) =
      digitsVal b (n * b + (digit_value c).getD 0) cs := rfl

/-- Go's per-step overflow checks in the `str_to_uint` loop are exact: for
valid digits, the loop returns precisely the mathematical magnitude whenever
it fits in 64 bits, and errors exactly when it does not. -/
theorem str_to_uint_loop_spec (b : Nat) (hb2 : 2 ≤ b) (hb16 : b ≤ 16)
    (ds : List Char)
    (hds : ∀ c ∈ ds, ∃ d, digit_value c = some d ∧ d < b) :
    ∀ n, n ≤ U64_MAX →
      (digitsVal b n ds ≤ U64_MAX →
        str_to_uint_loop b n ds = .ok (digitsVal b n ds)) ∧
      (U64_MAX < digitsVal b n ds →
        ∃ e, str_to_uint_loop b n ds = .error e) := by
  induction ds with
  | nil =>
    intro n hn
    constructor
    · intro _; rfl
    · intro h
      exact absurd h (by simpa [digitsVal] using hn)
  | cons c cs ih =>
    intro n hn
    obtain ⟨d, hd, hdb⟩ := hds c (List.mem_cons_self c cs)
    have hds' : ∀ x ∈ cs, ∃ e, digit_value x = some e ∧ e < b :=
      fun x hx => hds x (List.mem_cons_of_mem c hx)
    have hdv : digitsVal b n (c :: cs) = digitsVal b (n * b + d) cs := by
      rw [digitsVal_cons, hd]
      rfl
    by_cases hcut : cutoff b ≤ n
    · -- Go: n >= cutoff, "mul overflows"; the true value indeed exceeds max.
      have h4 : cutoff b * b = U64_MAX / b * b + b := by
        rw [cutoff]; ring
      have hnb : U64_MAX < n * b := by
        have h1 : cutoff b * b ≤ n * b := Nat.mul_le_mul_right b hcut
        have h2 := Nat.div_add_mod U64_MAX b
        have h3 : U64_MAX % b < b := Nat.mod_lt _ (by omega)
        have h5 : b * (U64_MAX / b) = U64_MAX / b * b := Nat.mul_comm _ _
        omega
      have hbig : U64_MAX < digitsVal b n (c :: cs) := by
        rw [hdv]
        have := le_digitsVal b (by omega) cs (n * b + d)
        omega
      refine ⟨fun h => absurd h (by omega), fun _ => ?_⟩
      refine ⟨"invalid input, mul overflows", ?_⟩
      simp only [str_to_uint_loop, hd]
      rw [if_neg (by omega), if_pos hcut]
    · -- Go: n < cutoff, so n*base does not wrap.
      have hnb : n * b ≤ U64_MAX := by
        have h1 : n ≤ U64_MAX / b := by
          rw [cutoff] at hcut; omega
        have h2 : n * b ≤ U64_MAX / b * b := Nat.mul_le_mul_right b h1
        have h3 : U64_MAX / b * b ≤ U64_MAX := Nat.div_mul_le_self _ _
        omega
      have hmod1 : n * b % U64_MOD = n * b :=
        Nat.mod_eq_of_lt (by simp only [U64_MOD]; simp only [U64_MAX] at hnb; omega)
      by_cases hadd : n * b + d ≤ U64_MAX
      · -- The add does not wrap either: recurse.
        have hmod2 : (n * b + d) % U64_MOD = n * b + d :=
          Nat.mod_eq_of_lt
            (by simp only [U64_MOD]; simp only [U64_MAX] at hadd; omega)
        have hloop : str_to_uint_loop b n (c :: cs) =
            str_to_uint_loop b (n * b + d) cs := by
          simp only [str_to_uint_loop, hd]
          rw [if_neg (by omega), if_neg hcut]
          simp only [hmod1, hmod2]
          rw [if_neg (by simp; omega)]
        rw [hdv, hloop]
        exact ih hds' (n * b + d) (by omega)
      · -- The add wraps: Go detects n1 < n2; the true value exceeds max.
        have hwrap : (n * b + d) % U64_MOD < n * b := by
          simp only [U64_MOD]
          simp only [U64_MAX] at hnb hadd
          omega
        have hbig : U64_MAX < digitsVal b n (c :: cs) := by
          rw [hdv]
          have := le_digitsVal b (by omega) cs (n * b + d)
          omega
        refine ⟨fun h => absurd h (by omega), fun _ => ?_⟩
        refine ⟨"invalid input, add overflows", ?_⟩
        simp only [str_to_uint_loop, hd]
        rw [if_neg (by omega), if_neg hcut]
        simp only [hmod1]
        rw [if_pos (by simp only [Bool.or_eq_true, decide_eq_true_eq]; omega)]

/-- A character with a digit value is not a sign character. -/
theorem digit_value_ne_sign (c : Char) (d : Nat)
    (h : digit_value c = some d) : c ≠ '+' ∧ c ≠ '-' := by
  constructor
  · rintro rfl
    rw [show digit_value '+' = none from rfl] at h
    cases h
  · rintro rfl
    rw [show digit_value '-' = none from rfl] at h
    cases h

/-- Base detection in `str_to_uint`: on a well-formed magnitude (bare `0`, a
`0x`/`0o`/`0b` prefix with at least one digit, or a base-10 digit string not
starting with `0`), the function returns the exact magnitude when it fits in
64 bits and errors when it does not. -/
theorem str_to_uint_body_spec (b : Nat) (body ds : List Char)
    (hbody : (body = ['0'] ∧ b = 10 ∧ ds = []) ∨
             (∃ p, body = '0' :: p :: ds ∧
               ((p = 'x' ∧ b = 16) ∨ (p = 'o' ∧ b = 8) ∨ (p = 'b' ∧ b = 2)) ∧
               ds ≠ []) ∨
             (body = ds ∧ b = 10 ∧ ds ≠ [] ∧ ds.headD ' ' ≠ '0'))
    (hds : ∀ c ∈ ds, ∃ d, digit_value c = some d ∧ d < b) :
    (digitsVal b 0 ds ≤ U64_MAX →
      str_to_uint body 0 = .ok (digitsVal b 0 ds)) ∧
    (U64_MAX < digitsVal b 0 ds → ∃ e, str_to_uint body 0 = .error e) := by
  have hb2 : 2 ≤ b := by
    rcases hbody with ⟨_, h, _⟩ | ⟨p, _, hp, _⟩ | ⟨_, h, _⟩ <;> omega
  have hb16 : b ≤ 16 := by
    rcases hbody with ⟨_, h, _⟩ | ⟨p, _, hp, _⟩ | ⟨_, h, _⟩ <;> omega
  have hloop := str_to_uint_loop_spec b hb2 hb16 ds hds 0 (Nat.zero_le _)
  rcases hbody with ⟨hb1, hb10, hdsnil⟩ | ⟨p, hb1, hp, hne⟩ |
    ⟨hb1, hb10, hne, hh0⟩
  · subst hb1; subst hb10; subst hdsnil
    constructor
    · intro _; rfl
    · intro h
      rw [show digitsVal 10 0 [] = 0 from rfl] at h
      exact absurd h (by decide)
  · obtain ⟨dh, dt, hdd⟩ := List.exists_cons_of_ne_nil hne
    subst hdd
    subst hb1
    have hred : str_to_uint ('0' :: p :: dh :: dt) 0 =
        str_to_uint_loop b 0 (dh :: dt) := by
      rcases hp with ⟨hpc, hbb⟩ | ⟨hpc, hbb⟩ | ⟨hpc, hbb⟩ <;>
        subst hpc <;> subst hbb <;> simp [str_to_uint]
    rw [hred]
    exact hloop
  · subst hb1; subst hb10
    obtain ⟨dh, dt, hdd⟩ := List.exists_cons_of_ne_nil hne
    subst hdd
    have hh : dh ≠ '0' := by simpa using hh0
    have hred : str_to_uint (dh :: dt) 0 = str_to_uint_loop 10 0 (dh :: dt) := by
      simp [str_to_uint, hh]
    rw [hred]
    exact hloop

/-- `str_to_int` is the sign split followed by `str_to_int_post`. -/
theorem str_to_int_eq_post (c0 : Char) (rest : List Char) :
    str_to_int (c0 :: rest) 0 =
      str_to_int_post (c0 = '-')
        (str_to_uint (if c0 = '+' || c0 = '-' then rest else c0 :: rest) 0) := by
  rfl

/-- Range analysis of the `str_to_int` tail: for a magnitude that fits in 64
bits, the signed result is exact iff the magnitude is below `2^63`, or equal
to `2^63` with a negative sign. -/
theorem str_to_int_post_spec (neg : Bool) (mag : Nat) (hmag : mag ≤ U64_MAX) :
    ((mag < I64_BOUND ∨ (mag = I64_BOUND ∧ neg = true)) →
      str_to_int_post neg (.ok mag) =
        .ok (if neg then -(mag : Int) else (mag : Int))) ∧
    (¬(mag < I64_BOUND ∨ (mag = I64_BOUND ∧ neg = true)) →
      ∃ e, str_to_int_post neg (.ok mag) = .error e) := by
  constructor
  · intro hrange
    cases neg with
    | false =>
      have hlt : mag < I64_BOUND := by
        rcases hrange with h | ⟨_, h⟩
        · exact h
        · cases h
      simp [str_to_int_post, hlt, Nat.not_le.mpr hlt]
    | true =>
      rcases hrange with hlt | ⟨heq, _⟩
      · have h1 : ¬ I64_BOUND < mag := by omega
        simp [str_to_int_post, hlt, h1]
      · subst heq
        have hval : ((I64_BOUND : Nat) : Int) - (U64_MOD : Int) =
            -((I64_BOUND : Nat) : Int) := by
          simp only [I64_BOUND, U64_MOD]
          decide
        have hneg : ¬ (0 : Int) ≤ ((I64_BOUND : Nat) : Int) - (U64_MOD : Int) := by
          simp only [I64_BOUND, U64_MOD]
          decide
        simp [str_to_int_post, hval, hneg]
        intro h
        exact absurd h (by simp [I64_BOUND])
  · intro hrange
    push_neg at hrange
    obtain ⟨h1, h2⟩ := hrange
    cases neg with
    | false =>
      refine ⟨"invalid input, overflows max value", ?_⟩
      simp [str_to_int_post, h1]
    | true =>
      have hne : mag ≠ I64_BOUND := fun h => (h2 h) rfl
      have h3 : I64_BOUND < mag := by omega
      refine ⟨"invalid input, underflows min value", ?_⟩
      simp [str_to_int_post, h3, Nat.not_lt.mpr (Nat.le_of_lt h3)]

/-- C2: for every integer literal (optional `+`/`-` sign, then a magnitude
with auto-detected base: bare `0`, a `0x`/`0o`/`0b` prefix, or a base-10
digit string), `str_to_int` fails exactly when the unsigned magnitude
accumulation overflows `2^64-1`, the magnitude exceeds `2^63`, or the
magnitude equals `2^63` with a non-negative sign — and otherwise returns the
exact signed 64-bit value of the literal. -/
theorem c2_str_to_int_overflow_exact
    (s sgn body ds : List Char) (neg : Bool) (b : Nat)
    (hs : s = sgn ++ body)
    (hsgn : (sgn = [] ∧ neg = false) ∨ (sgn = ['+'] ∧ neg = false) ∨
            (sgn = ['-'] ∧ neg = true))
    (hbody : (body = ['0'] ∧ b = 10 ∧ ds = []) ∨
             (∃ p, body = '0' :: p :: ds ∧
               ((p = 'x' ∧ b = 16) ∨ (p = 'o' ∧ b = 8) ∨ (p = 'b' ∧ b = 2)) ∧
               ds ≠ []) ∨
             (body = ds ∧ b = 10 ∧ ds ≠ [] ∧ ds.headD ' ' ≠ '0'))
    (hds : ∀ c ∈ ds, ∃ d, digit_value c = some d ∧ d < b) :
    ((digitsVal b 0 ds < I64_BOUND ∨
        (digitsVal b 0 ds = I64_BOUND ∧ neg = true)) →
      str_to_int s 0 =
        .ok (if neg then -(digitsVal b 0 ds : Int)
             else (digitsVal b 0 ds : Int))) ∧
    (¬(digitsVal b 0 ds < I64_BOUND ∨
        (digitsVal b 0 ds = I64_BOUND ∧ neg = true)) →
      ∃ e, str_to_int s 0 = .error e) := by
  have hu := str_to_uint_body_spec b body ds hbody hds
  have hred : str_to_int s 0 = str_to_int_post neg (str_to_uint body 0) := by
    rcases hsgn with ⟨hsg, hneg⟩ | ⟨hsg, hneg⟩ | ⟨hsg, hneg⟩ <;> subst hneg
    · have hhead : ∃ c0 brest, body = c0 :: brest ∧ c0 ≠ '+' ∧ c0 ≠ '-' := by
        rcases hbody with ⟨h1, _, _⟩ | ⟨p, h1, _, _⟩ | ⟨h1, _, hne, _⟩
        · exact ⟨'0', [], by simp [h1], by decide, by decide⟩
        · exact ⟨'0', p :: ds, by rw [h1], by decide, by decide⟩
        · obtain ⟨dh, dt, hdd⟩ := List.exists_cons_of_ne_nil hne
          obtain ⟨d, hdv, _⟩ :=
            hds dh (by rw [hdd]; exact List.mem_cons_self _ _)
          obtain ⟨hp, hm⟩ := digit_value_ne_sign dh d hdv
          exact ⟨dh, dt, by rw [h1, hdd], hp, hm⟩
      obtain ⟨c0, brest, hb0, hp, hm⟩ := hhead
      have hs' : s = c0 :: brest := by rw [hs, hsg, List.nil_append, hb0]
      rw [hs', str_to_int_eq_post]
      rw [if_neg (by simp [hp, hm])]
      have hd0 : (decide (c0 = '-')) = false := by simp [hm]
      rw [hd0, ← hb0]
    · have hs' : s = '+' :: body := by rw [hs, hsg, List.singleton_append]
      rw [hs', str_to_int_eq_post]
      rw [if_pos (by decide)]
      have hd0 : (decide ('+' = '-')) = false := by decide
      rw [hd0]
    · have hs' : s = '-' :: body := by rw [hs, hsg, List.singleton_append]
      rw [hs', str_to_int_eq_post]
      rw [if_pos (by decide)]
      have hd0 : (decide ('-' = '-')) = true := by decide
      rw [hd0]
  rw [hred]
  constructor
  · intro hrange
    have hmagle : digitsVal b 0 ds ≤ U64_MAX := by
      rcases hrange with h | ⟨h, _⟩ <;> simp only [I64_BOUND] at h <;>
        simp only [U64_MAX] <;> omega
    rw [hu.1 hmagle]
    exact (str_to_int_post_spec neg _ hmagle).1 hrange
  · intro hrange
    by_cases hfit : digitsVal b 0 ds ≤ U64_MAX
    · rw [hu.1 hfit]
      exact (str_to_int_post_spec neg _ hfit).2 hrange
    · obtain ⟨e, he⟩ := hu.2 (by omega)
      rw [he]
      exact ⟨e, rfl⟩

/-- Witness for C2: the literal `-0b1010` evaluates to `-10`. -/
theorem c2_witness : str_to_int ("-0b1010").toList 0 = .ok (-10) := by
  have h := (c2_str_to_int_overflow_exact ("-0b1010").toList ['-']
    ("0b1010").toList ['1', '0', '1', '0'] true 2 rfl
    (Or.inr (Or.inr ⟨rfl, rfl⟩))
    (Or.inr (Or.inl ⟨'b', rfl, Or.inr (Or.inr ⟨rfl, rfl⟩), by decide⟩))
    (by
      intro c hc
      fin_cases hc <;> exact ⟨_, rfl, by decide⟩)).1
  rw [h (by decide)]
  rfl
